import Mathlib

/-!
Verification of the timetracker time-tracking ledger and its dual-layer
storage against the repository sources.

Shallow embedding conventions:
* An instant is an integer number of seconds since the Go zero time
  (January 1, year 1, 00:00:00 UTC).  Go's `time` package ignores leap
  seconds, so UTC calendar-day boundaries fall exactly at multiples of
  86400 seconds.
* A timezone (`time.Location`) is modelled as a fixed UTC offset in
  seconds; `t.In(loc)` does not change the instant, only its rendering.
* The `user_tasks` table is a list of rows; SQL result sets are lists in
  row order.
* Go `map` values are association lists; `nil`-able SQL columns are
  `Option`; fallible operations return `Except`.
-/

namespace Timetracker

abbrev Instant := Int

def secondsPerDay : Int := 86400

/-- Go `t.Truncate(24 * time.Hour)`: rounds `t` down to a multiple of 24h
counted from the zero time, i.e. to UTC midnight of the UTC day containing
`t`, regardless of the location attached to `t`. -/
def goTruncateDay (t : Instant) : Instant :=
  secondsPerDay * (t.fdiv secondsPerDay)

/-- Calendar-day index of instant `t` as seen in a location with fixed UTC
offset `off` (in seconds). -/
def localDay (off : Int) (t : Instant) : Int :=
  (t + off).fdiv secondsPerDay

/-- Embeds `controllers/base.go` (StartTaskTracking / StopTaskTracking
handlers): `startOfDay := time.Now().In(loc).Truncate(24 * time.Hour)`.
The `In(loc)` call leaves the instant unchanged, so the offset `off` of the
user's location does not enter the computation. -/
def eventDateOf (off : Int) (now : Instant) : Instant :=
  goTruncateDay now

/-! ## Ledger store (`user_tasks` table) -/

/-- One row of the `user_tasks` table (`bdkeeper`): serial id plus
(user_id, task_id, event_date, start_time, end_time-nullable). -/
structure TimeEntryRow where
  id : Nat
  userId : Int
  taskId : Int
  eventDate : Instant
  startTime : Instant
  endTime : Option Instant
deriving DecidableEq, Repr

/-- The durable ledger: the rows plus the next serial id. -/
structure Store where
  rows : List TimeEntryRow
  nextId : Nat
deriving DecidableEq, Repr

def Store.empty : Store := ⟨[], 1⟩

/-- The `models.TimeEntry` fields that reach the SQL in Start/Stop. -/
structure TimeEntry where
  userId : Int
  taskId : Int
  eventDate : Instant
deriving DecidableEq, Repr

/-- The WHERE clause shared by Start and Stop:
`user_id = $1 AND task_id = $2 AND event_date = $3 AND end_time IS NULL`. -/
def matchesOpen (e : TimeEntry) (r : TimeEntryRow) : Bool :=
  decide (r.userId = e.userId ∧ r.taskId = e.taskId ∧
    r.eventDate = e.eventDate ∧ r.endTime = none)

inductive TrackErr where
  | alreadyTracking
  | notTracking
deriving DecidableEq, Repr

def newRow (e : TimeEntry) (now : Instant) (nid : Nat) : TimeEntryRow :=
  { id := nid, userId := e.userId, taskId := e.taskId,
    eventDate := e.eventDate, startTime := now, endTime := none }

/-- Embeds `BDKeeper.StartTaskTracking`: within one transaction, `QueryRow`
the open-row check (the first matching row's id, 0 when there is none),
fail with the "already in progress" error when it is nonzero, otherwise
INSERT a fresh row with `start_time = now`. -/
def StartTaskTracking (e : TimeEntry) (now : Instant) (s : Store) :
    Except TrackErr Unit × Store :=
  let existingTaskID : Nat :=
    (((s.rows.filter (matchesOpen e)).head?).map TimeEntryRow.id).getD 0
  if existingTaskID ≠ 0 then
    (Except.error TrackErr.alreadyTracking, s)
  else
    (Except.ok (),
      { rows := s.rows ++ [newRow e now s.nextId], nextId := s.nextId + 1 })

/-- The `UPDATE user_tasks SET end_time = $1 WHERE id = $2` row transform. -/
def closeRow (rid : Nat) (now : Instant) (r : TimeEntryRow) : TimeEntryRow :=
  if r.id = rid then { r with endTime := some now } else r

/-- Embeds `BDKeeper.StopTaskTracking`: within one transaction, scan all
open rows for (user, task, event_date) keeping the last id, fail with the
"no active task tracking found" error when none, otherwise set that row's
`end_time = now`. -/
def StopTaskTracking (e : TimeEntry) (now : Instant) (s : Store) :
    Except TrackErr Unit × Store :=
  match (s.rows.filter (matchesOpen e)).getLast? with
  | none => (Except.error TrackErr.notTracking, s)
  | some r => (Except.ok (), { s with rows := s.rows.map (closeRow r.id now) })

inductive Op where
  | start (e : TimeEntry) (now : Instant)
  | stop (e : TimeEntry) (now : Instant)

def execOp (s : Store) (o : Op) : Store :=
  match o with
  | Op.start e now => (StartTaskTracking e now s).2
  | Op.stop e now => (StopTaskTracking e now s).2

def runOps (ops : List Op) : Store :=
  ops.foldl execOp Store.empty

def openRows (s : Store) (e : TimeEntry) : List TimeEntryRow :=
  s.rows.filter (matchesOpen e)

/-- Serial-id discipline of the table: ids start at 1, stay below the next
serial value and never repeat. -/
def ValidIds (s : Store) : Prop :=
  1 ≤ s.nextId ∧ (∀ r ∈ s.rows, 1 ≤ r.id ∧ r.id < s.nextId) ∧
    (s.rows.map TimeEntryRow.id).Nodup

/-- Pairwise form of the central ledger invariant: no two rows are both
open for the same (user, task, event_date). -/
def OpenUniqueP (s : Store) : Prop :=
  s.rows.Pairwise fun r q =>
    r.endTime = none → q.endTime = none → r.userId = q.userId →
      r.taskId = q.taskId → r.eventDate ≠ q.eventDate

def Inv (s : Store) : Prop := ValidIds s ∧ OpenUniqueP s

lemma matchesOpen_iff (e : TimeEntry) (r : TimeEntryRow) :
    matchesOpen e r = true ↔
      (r.userId = e.userId ∧ r.taskId = e.taskId ∧
        r.eventDate = e.eventDate ∧ r.endTime = none) := by
  simp [matchesOpen]

lemma closeRow_id (rid : Nat) (now : Instant) (r : TimeEntryRow) :
    (closeRow rid now r).id = r.id := by
  unfold closeRow; split <;> rfl

lemma closeRow_of_ne (rid : Nat) (now : Instant) (r : TimeEntryRow)
    (h : r.id ≠ rid) : closeRow rid now r = r := by
  unfold closeRow; exact if_neg h

lemma closeRow_self (rid : Nat) (now : Instant) (r : TimeEntryRow)
    (h : r.id = rid) : closeRow rid now r = { r with endTime := some now } := by
  unfold closeRow; exact if_pos h

lemma closeRow_open (rid : Nat) (now : Instant) (r : TimeEntryRow)
    (h : (closeRow rid now r).endTime = none) :
    r.endTime = none ∧ closeRow rid now r = r := by
  unfold closeRow at h ⊢
  split at h
  · simp at h
  · simp_all

lemma mem_of_head? {α : Type} {l : List α} {a : α} (h : l.head? = some a) :
    a ∈ l := by
  cases l with
  | nil => simp at h
  | cons x xs => simp at h; simp [h]

/-- Behaviour dichotomy of Start on a store with serial-id discipline:
either there is no open row for the key and a fresh row is appended, or
there is one and the call fails leaving the store unchanged. -/
lemma start_eq (e : TimeEntry) (now : Instant) (s : Store) (hids : ValidIds s) :
    (openRows s e = [] ∧ StartTaskTracking e now s =
        (Except.ok (),
          { rows := s.rows ++ [newRow e now s.nextId], nextId := s.nextId + 1 })) ∨
    (openRows s e ≠ [] ∧
      StartTaskTracking e now s = (Except.error TrackErr.alreadyTracking, s)) := by
  cases h : (s.rows.filter (matchesOpen e)).head? with
  | none =>
    left
    have hnil : s.rows.filter (matchesOpen e) = [] := List.head?_eq_none_iff.mp h
    constructor
    · exact hnil
    · simp [StartTaskTracking, h]
  | some r =>
    right
    have hmem : r ∈ s.rows.filter (matchesOpen e) := mem_of_head? h
    have hrow : r ∈ s.rows := (List.mem_filter.mp hmem).1
    have hid : 1 ≤ r.id := (hids.2.1 r hrow).1
    constructor
    · exact List.ne_nil_of_mem hmem
    · have : r.id ≠ 0 := by omega
      simp [StartTaskTracking, h, this]

lemma start_validIds (e : TimeEntry) (now : Instant) (s : Store)
    (h : ValidIds s) : ValidIds (StartTaskTracking e now s).2 := by
  rcases start_eq e now s h with ⟨_, heq⟩ | ⟨_, heq⟩
  swap
  · rw [heq]; exact h
  · rw [heq]
    obtain ⟨h0, h1, h2⟩ := h
    refine ⟨?_, ?_, ?_⟩
    · show 1 ≤ s.nextId + 1
      omega
    · show ∀ r ∈ s.rows ++ [newRow e now s.nextId], 1 ≤ r.id ∧ r.id < s.nextId + 1
      intro r hr
      rcases List.mem_append.mp hr with hr | hr
      · have := h1 r hr; omega
      · simp at hr
        subst hr
        simp [newRow]
        omega
    · show ((s.rows ++ [newRow e now s.nextId]).map TimeEntryRow.id).Nodup
      simp only [List.map_append]
      rw [List.nodup_append]
      refine ⟨h2, by simp, ?_⟩
      intro a ha hb
      simp [newRow] at hb
      subst hb
      simp at ha
      obtain ⟨r, hr, hid⟩ := ha
      have := h1 r hr
      omega

lemma start_openUniqueP (e : TimeEntry) (now : Instant) (s : Store)
    (hids : ValidIds s) (h : OpenUniqueP s) :
    OpenUniqueP (StartTaskTracking e now s).2 := by
  rcases start_eq e now s hids with ⟨hnil, heq⟩ | ⟨_, heq⟩
  · rw [heq]
    unfold OpenUniqueP at h ⊢
    dsimp only
    rw [List.pairwise_append]
    refine ⟨h, by simp, ?_⟩
    intro a ha b hb
    simp at hb
    subst hb
    intro haEnd _ haU haT haD
    have hmatch : matchesOpen e a = true := by
      rw [matchesOpen_iff]
      simp [newRow] at haU haT haD
      exact ⟨haU, haT, haD, haEnd⟩
    have : a ∈ s.rows.filter (matchesOpen e) := List.mem_filter.mpr ⟨ha, hmatch⟩
    rw [show s.rows.filter (matchesOpen e) = openRows s e from rfl, hnil] at this
    simp at this
  · rw [heq]; exact h

lemma stop_validIds (e : TimeEntry) (now : Instant) (s : Store)
    (h : ValidIds s) : ValidIds (StopTaskTracking e now s).2 := by
  unfold StopTaskTracking
  cases hl : (s.rows.filter (matchesOpen e)).getLast? with
  | none => exact h
  | some r =>
    obtain ⟨h0, h1, h2⟩ := h
    refine ⟨h0, ?_, ?_⟩
    · intro q hq
      simp at hq
      obtain ⟨p, hp, hq⟩ := hq
      subst hq
      rw [closeRow_id]
      exact h1 p hp
    · have : (s.rows.map (closeRow r.id now)).map TimeEntryRow.id
          = s.rows.map TimeEntryRow.id := by
        rw [List.map_map]
        exact List.map_congr_left fun a _ => closeRow_id r.id now a
      dsimp only
      rw [this]
      exact h2

lemma stop_openUniqueP (e : TimeEntry) (now : Instant) (s : Store)
    (h : OpenUniqueP s) : OpenUniqueP (StopTaskTracking e now s).2 := by
  unfold StopTaskTracking
  cases hl : (s.rows.filter (matchesOpen e)).getLast? with
  | none => exact h
  | some r =>
    unfold OpenUniqueP at h ⊢
    dsimp only
    refine h.map (closeRow r.id now) ?_
    intro a b hab haEnd hbEnd haU hbT
    obtain ⟨haEnd', haeq⟩ := closeRow_open r.id now a haEnd
    obtain ⟨hbEnd', hbeq⟩ := closeRow_open r.id now b hbEnd
    rw [haeq, hbeq] at haU hbT ⊢
    exact hab haEnd' hbEnd' haU hbT

lemma inv_execOp (s : Store) (o : Op) (h : Inv s) : Inv (execOp s o) := by
  cases o with
  | start e now =>
    exact ⟨start_validIds e now s h.1, start_openUniqueP e now s h.1 h.2⟩
  | stop e now =>
    exact ⟨stop_validIds e now s h.1, stop_openUniqueP e now s h.2⟩

lemma inv_empty : Inv Store.empty := by
  refine ⟨⟨le_refl 1, by simp [Store.empty], by simp [Store.empty]⟩, ?_⟩
  exact List.Pairwise.nil

lemma inv_runOps (ops : List Op) : Inv (runOps ops) := by
  have key : ∀ (l : List Op) (s : Store), Inv s → Inv (l.foldl execOp s) := by
    intro l
    induction l with
    | nil => intro s hs; exact hs
    | cons o os ih => intro s hs; exact ih (execOp s o) (inv_execOp s o hs)
  exact key ops Store.empty inv_empty

lemma length_filter_le_one {α : Type} {p : α → Bool} {R : α → α → Prop} :
    ∀ {l : List α}, l.Pairwise R →
      (∀ a b, p a = true → p b = true → R a b → False) →
      (l.filter p).length ≤ 1 := by
  intro l
  induction l with
  | nil => intro _ _; simp
  | cons a l ih =>
    intro hp hcomp
    rcases List.pairwise_cons.mp hp with ⟨ha, hl⟩
    rw [List.filter_cons]
    by_cases hpa : p a = true
    · have hnil : l.filter p = [] := by
        rw [List.filter_eq_nil_iff]
        intro b hb hpb
        exact hcomp a b hpa hpb (ha b hb)
      simp [hpa, hnil]
    · simp only [hpa]
      simp only [Bool.false_eq_true, if_false]
      exact ih hl hcomp

lemma openUniqueP_length {s : Store} (h : OpenUniqueP s) (e : TimeEntry) :
    (openRows s e).length ≤ 1 := by
  refine length_filter_le_one h ?_
  intro a b ha hb hr
  rw [matchesOpen_iff] at ha hb
  exact hr ha.2.2.2 hb.2.2.2 (ha.1.trans hb.1.symm) (ha.2.1.trans hb.2.1.symm)
    (ha.2.2.1.trans hb.2.2.1.symm)

/-- C1: starting from the empty store, every sequence of Start/Stop
operations leaves at most one TimeEntry row with `end_time = NULL` for any
given (user, task, event_date). -/
theorem ledger_atMostOneOpen (ops : List Op) (e : TimeEntry) :
    (openRows (runOps ops) e).length ≤ 1 :=
  openUniqueP_length (inv_runOps ops).2 e

lemma exists_open_iff (e : TimeEntry) (s : Store) :
    (∃ r ∈ s.rows, matchesOpen e r = true) ↔ openRows s e ≠ [] := by
  unfold openRows
  constructor
  · rintro ⟨r, hr, hm⟩
    exact List.ne_nil_of_mem (List.mem_filter.mpr ⟨hr, hm⟩)
  · intro hne
    rcases List.exists_mem_of_ne_nil _ hne with ⟨r, hrmem⟩
    obtain ⟨hr, hm⟩ := List.mem_filter.mp hrmem
    exact ⟨r, hr, hm⟩

/-- C2: on a store obeying the serial-id discipline, Start fails with the
"already tracking" error and leaves the store unchanged when an open row
for (user, task, event_date) exists; otherwise it appends exactly one new
row with `start_time = now` and `end_time = NULL` and succeeds — and a
second Start for the same key right after then fails. -/
theorem StartTaskTracking_spec (e : TimeEntry) (now now2 : Instant)
    (s : Store) (hids : ValidIds s) :
    ((∃ r ∈ s.rows, matchesOpen e r = true) →
        StartTaskTracking e now s = (Except.error TrackErr.alreadyTracking, s)) ∧
    ((¬ ∃ r ∈ s.rows, matchesOpen e r = true) →
        StartTaskTracking e now s =
          (Except.ok (),
            { rows := s.rows ++ [newRow e now s.nextId], nextId := s.nextId + 1 }) ∧
        (StartTaskTracking e now2 ((StartTaskTracking e now s).2)).1 =
          Except.error TrackErr.alreadyTracking) := by
  rcases start_eq e now s hids with ⟨hnil, heq⟩ | ⟨hne, heq⟩
  · constructor
    · intro hcon
      rw [exists_open_iff] at hcon
      exact absurd hnil hcon
    · intro _
      refine ⟨heq, ?_⟩
      have h2 : (StartTaskTracking e now s).2 =
          ({ rows := s.rows ++ [newRow e now s.nextId],
             nextId := s.nextId + 1 } : Store) := congrArg Prod.snd heq
      have hids2 : ValidIds (StartTaskTracking e now s).2 :=
        start_validIds e now s hids
      rcases start_eq e now2 _ hids2 with ⟨hnil2, _⟩ | ⟨_, heq2⟩
      · exfalso
        have hmem : newRow e now s.nextId ∈ (StartTaskTracking e now s).2.rows := by
          rw [h2]; simp
        have hmatch : matchesOpen e (newRow e now s.nextId) = true := by
          rw [matchesOpen_iff]; simp [newRow]
        have hopen : newRow e now s.nextId ∈ openRows (StartTaskTracking e now s).2 e :=
          List.mem_filter.mpr ⟨hmem, hmatch⟩
        rw [hnil2] at hopen
        simp at hopen
      · rw [heq2]
  · constructor
    · intro _
      exact heq
    · intro hcon
      rw [exists_open_iff] at hcon
      exact absurd hne hcon

def e14 : TimeEntry := ⟨1, 4, 0⟩

theorem StartTaskTracking_spec_witness :
    StartTaskTracking e14 100 Store.empty =
      (Except.ok (),
        { rows := Store.empty.rows ++ [newRow e14 100 Store.empty.nextId],
          nextId := Store.empty.nextId + 1 }) ∧
    (StartTaskTracking e14 200 ((StartTaskTracking e14 100 Store.empty).2)).1 =
      Except.error TrackErr.alreadyTracking :=
  (StartTaskTracking_spec e14 100 200 Store.empty
      (by unfold ValidIds; decide)).2 (by decide)

/-- C3: Stop fails with the "no active task tracking found" error and
leaves the store unchanged when no open row for (user, task, event_date)
exists; when the open row is unique it sets exactly that row's `end_time`
to `now`, leaves every other row unchanged and succeeds — and a second
Stop for the same key right after then fails. -/
theorem StopTaskTracking_spec (e : TimeEntry) (now now2 : Instant) (s : Store) :
    (openRows s e = [] →
        StopTaskTracking e now s = (Except.error TrackErr.notTracking, s)) ∧
    (∀ r : TimeEntryRow, openRows s e = [r] →
        r ∈ s.rows ∧ matchesOpen e r = true ∧
        StopTaskTracking e now s =
          (Except.ok (), { s with rows := s.rows.map (closeRow r.id now) }) ∧
        closeRow r.id now r = { r with endTime := some now } ∧
        (∀ q ∈ s.rows, q.id ≠ r.id → closeRow r.id now q = q) ∧
        (StopTaskTracking e now2 ((StopTaskTracking e now s).2)).1 =
          Except.error TrackErr.notTracking) := by
  constructor
  · intro hnil
    have hnil' : s.rows.filter (matchesOpen e) = [] := hnil
    unfold StopTaskTracking
    rw [hnil']
    rfl
  · intro r hsing
    have hsing' : s.rows.filter (matchesOpen e) = [r] := hsing
    have hrmem : r ∈ s.rows.filter (matchesOpen e) := by rw [hsing']; simp
    obtain ⟨hr, hm⟩ := List.mem_filter.mp hrmem
    have hlast : (s.rows.filter (matchesOpen e)).getLast? = some r := by
      rw [hsing']; rfl
    have heq : StopTaskTracking e now s =
        (Except.ok (), { s with rows := s.rows.map (closeRow r.id now) }) := by
      unfold StopTaskTracking
      rw [hlast]
    refine ⟨hr, hm, heq, closeRow_self r.id now r rfl, ?_, ?_⟩
    · intro q _ hq
      exact closeRow_of_ne r.id now q hq
    · have h2 : (StopTaskTracking e now s).2 =
          ({ s with rows := s.rows.map (closeRow r.id now) } : Store) :=
        congrArg Prod.snd heq
      have hnone : (s.rows.map (closeRow r.id now)).filter (matchesOpen e) = [] := by
        rw [List.filter_eq_nil_iff]
        intro q' hq' hm'
        simp at hq'
        obtain ⟨q, hqmem, hqeq⟩ := hq'
        subst hqeq
        rw [matchesOpen_iff] at hm'
        obtain ⟨hend, hfix⟩ := closeRow_open r.id now q hm'.2.2.2
        rw [hfix] at hm'
        have hmq : matchesOpen e q = true := by rw [matchesOpen_iff]; exact hm'
        have hqin : q ∈ s.rows.filter (matchesOpen e) :=
          List.mem_filter.mpr ⟨hqmem, hmq⟩
        rw [hsing'] at hqin
        simp at hqin
        subst hqin
        have hcs := closeRow_self q.id now q rfl
        rw [hfix] at hcs
        have : q.endTime = some now := congrArg TimeEntryRow.endTime hcs
        rw [hend] at this
        simp at this
      rw [h2]
      unfold StopTaskTracking
      dsimp only
      rw [hnone]
      rfl

def sampleOpenStore : Store := ⟨[⟨1, 1, 4, 0, 100, none⟩], 2⟩

theorem StopTaskTracking_spec_witness :
    StopTaskTracking e14 200 sampleOpenStore =
      (Except.ok (),
        { sampleOpenStore with
            rows := sampleOpenStore.rows.map (closeRow 1 200) }) ∧
    (StopTaskTracking e14 300 ((StopTaskTracking e14 200 sampleOpenStore).2)).1 =
      Except.error TrackErr.notTracking := by
  have h := (StopTaskTracking_spec e14 200 300 sampleOpenStore).2
    ⟨1, 1, 4, 0, 100, none⟩ (by decide)
  exact ⟨h.2.2.1, h.2.2.2.2.2⟩

/-- C5: `time.Now().In(loc).Truncate(24 * time.Hour)` truncates to the
UTC calendar day, not to midnight in the user's timezone, so for the
Moscow offset (+03:00, `off = 10800`) at instant 79200 (22:00 UTC, which
is 01:00 on local day 1) the stored event_date pins local day 0 while the
user's local calendar day is 1. -/
theorem eventDate_utcTruncation_bug :
    eventDateOf 10800 79200 = 0 ∧ localDay 10800 79200 = 1 ∧
      localDay 10800 (eventDateOf 10800 79200) = 0 ∧
      localDay 10800 (eventDateOf 10800 79200) ≠ localDay 10800 79200 := by
  decide

/-! ## Summary aggregation (`GetUserTaskSummary`) -/

/-- One row of `SELECT task_id, start_time, end_time FROM user_tasks` with
`end_time` NULL represented as `none` (the Go code sees it as the zero
`time.Time` and tests `IsZero`). -/
structure FetchedRow where
  taskId : Int
  startTime : Instant
  endTime : Option Instant
deriving DecidableEq, Repr

/-- Embeds `time.Date(startTime.Year(), startTime.Month(), startTime.Day(),
23, 59, 59, 0, location)`: the instant whose clock in the user's location
reads 23:59:59 on start_time's local calendar day. -/
def endOfStartDay (off : Int) (st : Instant) : Instant :=
  secondsPerDay * localDay off st + 86399 - off

/-- The effective end used by `GetUserTaskSummary` for one row: the stored
`end_time` when present, else `default_end_time` when that is not the zero
time, else 23:59:59 of start_time's day. -/
def effectiveEnd (off : Int) (defaultEndTime : Instant) (r : FetchedRow) : Instant :=
  match r.endTime with
  | some e => e
  | none =>
    if defaultEndTime ≠ 0 then defaultEndTime else endOfStartDay off r.startTime

/-- The `duration := endTime.Sub(startTime)` value accumulated for one row,
in nanoseconds (Go's `time.Duration` unit). -/
def contribution (off : Int) (defaultEndTime : Instant) (r : FetchedRow) : Int :=
  (effectiveEnd off defaultEndTime r - r.startTime) * 1000000000

/-- Go `taskTimeMap[taskID] += duration` on an association list: add to the
entry when the key is present, append a new entry otherwise. -/
def addToMap (m : List (Int × Int)) (k v : Int) : List (Int × Int) :=
  match m with
  | [] => [(k, v)]
  | (k1, v1) :: rest =>
    if k1 = k then (k, v1 + v) :: rest else (k1, v1) :: addToMap rest k v

/-- Association-list lookup (Go map read). -/
def mapLookup {α β : Type} [DecidableEq α] : List (α × β) → α → Option β
  | [], _ => none
  | (k, v) :: rest, a => if a = k then some v else mapLookup rest a

/-- The accumulation loop of `GetUserTaskSummary` over the fetched rows,
with contribution function `c` and initial map `m`. -/
def accMap (c : FetchedRow → Int) (rows : List FetchedRow)
    (m : List (Int × Int)) : List (Int × Int) :=
  rows.foldl (fun acc r => addToMap acc r.taskId (c r)) m

/-- Go's `taskTimeMap` after the row loop of `GetUserTaskSummary`. -/
def taskTimeMap (off : Int) (defaultEndTime : Instant)
    (rows : List FetchedRow) : List (Int × Int) :=
  accMap (contribution off defaultEndTime) rows []

/-! Formatting of `time.Duration.String` and Go string comparison, needed
because `TaskSummary.TotalTime` is the formatted string and the final sort
compares those strings. -/

def padZeros (s : String) (n : Nat) : String :=
  String.mk (List.replicate (n - s.length) '0') ++ s

def dropTrailingZeros (s : String) : String :=
  String.mk ((s.toList.reverse.dropWhile fun c => c == '0').reverse)

/-- Go's `fmtFrac`: the fractional part of `u` below `10 ^ prec`, printed
with the decimal point and trailing zeros removed, empty when zero. -/
def goFracPart (u prec : Nat) : String :=
  let f := u % (10 ^ prec)
  if f = 0 then "" else "." ++ dropTrailingZeros (padZeros (toString f) prec)

/-- Go's `time.Duration.String` for a duration of `d` nanoseconds. -/
def goDurationString (d : Int) : String :=
  let u := d.natAbs
  let sign := if d < 0 then "-" else ""
  if u < 1000000000 then
    if u = 0 then "0s"
    else if u < 1000 then sign ++ toString u ++ "ns"
    else if u < 1000000 then sign ++ toString (u / 1000) ++ goFracPart u 3 ++ "µs"
    else sign ++ toString (u / 1000000) ++ goFracPart u 6 ++ "ms"
  else
    let totalSec := u / 1000000000
    let secPart := toString (totalSec % 60) ++ goFracPart u 9 ++ "s"
    let m := totalSec / 60
    if m = 0 then sign ++ secPart
    else
      let minPart := toString (m % 60) ++ "m" ++ secPart
      let h := m / 60
      if h = 0 then sign ++ minPart
      else sign ++ toString h ++ "h" ++ minPart

/-- Lexicographic strict order on character lists; Go's byte-lexicographic
string order agrees with it on UTF-8 encoded text. -/
def charListLt : List Char → List Char → Bool
  | [], [] => false
  | [], _ :: _ => true
  | _ :: _, [] => false
  | a :: as, b :: bs =>
    if a < b then true else if b < a then false else charListLt as bs

/-- Go's `a < b` on strings. -/
def goStringLt (a b : String) : Bool := charListLt a.toList b.toList

/-- The `models.TaskSummary` value: task id plus the formatted total. -/
structure TaskSummary where
  taskId : Int
  totalTime : String
deriving DecidableEq, Repr

/-- The order established by Go's `sort.Slice(taskSummaries, less)` with
`less i j := taskSummaries[i].TotalTime > taskSummaries[j].TotalTime`: an
earlier element is string-wise not less than a later one. -/
def summaryGE (a b : TaskSummary) : Prop :=
  goStringLt a.totalTime b.totalTime = false

instance summaryGE_decidable : DecidableRel summaryGE :=
  fun a b => inferInstanceAs (Decidable (_ = false))

lemma charListLt_irrefl : ∀ a : List Char, charListLt a a = false := by
  intro a
  induction a with
  | nil => rfl
  | cons x xs ih =>
    show (if x < x then true else if x < x then false else charListLt xs xs) = false
    rw [if_neg (lt_irrefl x), if_neg (lt_irrefl x)]
    exact ih

lemma charListLt_trans : ∀ (a b c : List Char), charListLt a b = true →
    charListLt b c = true → charListLt a c = true := by
  intro a
  induction a with
  | nil =>
    intro b c _ hbc
    cases c with
    | nil =>
      cases b with
      | nil => simp [charListLt] at hbc
      | cons y ys => simp [charListLt] at hbc
    | cons z zs => rfl
  | cons x xs ih =>
    intro b c hab hbc
    cases b with
    | nil => simp [charListLt] at hab
    | cons y ys =>
      cases c with
      | nil => simp [charListLt] at hbc
      | cons z zs =>
        show (if x < z then true else if z < x then false else charListLt xs zs) = true
        have hab' : (if x < y then true else if y < x then false
            else charListLt xs ys) = true := hab
        have hbc' : (if y < z then true else if z < y then false
            else charListLt ys zs) = true := hbc
        by_cases hxy : x < y
        · by_cases hyz : y < z
          · rw [if_pos (lt_trans hxy hyz)]
          · rw [if_neg hyz] at hbc'
            by_cases hzy : z < y
            · rw [if_pos hzy] at hbc'
              exact absurd hbc' (by simp)
            · have heq : y = z := le_antisymm (not_lt.mp hzy) (not_lt.mp hyz)
              subst heq
              rw [if_pos hxy]
        · rw [if_neg hxy] at hab'
          by_cases hyx : y < x
          · rw [if_pos hyx] at hab'
            exact absurd hab' (by simp)
          · have heq : x = y := le_antisymm (not_lt.mp hyx) (not_lt.mp hxy)
            subst heq
            rw [if_neg hyx] at hab'
            by_cases hxz : x < z
            · rw [if_pos hxz]
            · rw [if_neg hxz]
              by_cases hzx : z < x
              · rw [if_neg hxz, if_pos hzx] at hbc'
                exact absurd hbc' (by simp)
              · rw [if_neg hzx]
                rw [if_neg hxz, if_neg hzx] at hbc'
                exact ih ys zs hab' hbc'

lemma charListLt_asymm (a b : List Char) (h : charListLt a b = true) :
    charListLt b a = false := by
  by_contra hc
  rw [Bool.not_eq_false] at hc
  have h2 := charListLt_trans a b a h hc
  rw [charListLt_irrefl] at h2
  exact absurd h2 (by simp)

lemma charListLt_conn : ∀ (a b : List Char), charListLt a b = false →
    charListLt b a = true ∨ a = b := by
  intro a
  induction a with
  | nil =>
    intro b hab
    cases b with
    | nil => exact Or.inr rfl
    | cons y ys => simp [charListLt] at hab
  | cons x xs ih =>
    intro b hab
    cases b with
    | nil => exact Or.inl rfl
    | cons y ys =>
      have hab' : (if x < y then true else if y < x then false
          else charListLt xs ys) = false := hab
      by_cases hxy : x < y
      · rw [if_pos hxy] at hab'
        exact absurd hab' (by simp)
      · rw [if_neg hxy] at hab'
        by_cases hyx : y < x
        · left
          show (if y < x then true else if x < y then false
              else charListLt ys xs) = true
          rw [if_pos hyx]
        · have heq : x = y := le_antisymm (not_lt.mp hyx) (not_lt.mp hxy)
          subst heq
          rw [if_neg hyx] at hab'
          rcases ih ys hab' with h | h
          · left
            show (if x < x then true else if x < x then false
                else charListLt ys xs) = true
            rw [if_neg hxy, if_neg hxy]
            exact h
          · right
            rw [h]

lemma charListLt_false_trans (a b c : List Char)
    (hab : charListLt a b = false) (hbc : charListLt b c = false) :
    charListLt a c = false := by
  rcases charListLt_conn a b hab with hba | rfl
  · rcases charListLt_conn b c hbc with hcb | rfl
    · by_contra hc
      rw [Bool.not_eq_false] at hc
      have h1 := charListLt_trans c b a hcb hba
      have h2 := charListLt_trans a c a hc h1
      rw [charListLt_irrefl] at h2
      exact absurd h2 (by simp)
    · exact hab
  · exact hbc

instance summaryGE_total : IsTotal TaskSummary summaryGE := by
  constructor
  intro a b
  by_cases h : goStringLt a.totalTime b.totalTime = true
  · right
    exact charListLt_asymm _ _ h
  · left
    exact Bool.eq_false_iff.mpr h

instance summaryGE_trans : IsTrans TaskSummary summaryGE := by
  constructor
  intro a b c hab hbc
  exact charListLt_false_trans _ _ _ hab hbc

/-- Embeds `GetUserTaskSummary` after the row fetch: accumulate per-task
durations, format each with `Duration.String`, then `sort.Slice` with the
string comparator (an unstable comparison sort; insertion sort is one
conforming result, ties being implementation-defined). -/
def GetUserTaskSummary (off : Int) (defaultEndTime : Instant)
    (rows : List FetchedRow) : List TaskSummary :=
  List.insertionSort summaryGE
    ((taskTimeMap off defaultEndTime rows).map fun kv =>
      { taskId := kv.1, totalTime := goDurationString kv.2 })

lemma addToMap_keys (m : List (Int × Int)) (k v : Int) :
    (addToMap m k v).map Prod.fst =
      if k ∈ m.map Prod.fst then m.map Prod.fst else m.map Prod.fst ++ [k] := by
  induction m with
  | nil => simp [addToMap]
  | cons kv rest ih =>
    obtain ⟨k1, v1⟩ := kv
    rw [addToMap]
    by_cases h1 : k1 = k
    · subst h1
      simp
    · rw [if_neg h1]
      simp only [List.map_cons, ih]
      by_cases h2 : k ∈ rest.map Prod.fst
      · rw [if_pos h2, if_pos (by simp [h2])]
      · have hk : k ∉ (k1 :: rest.map Prod.fst) := by
          simp only [List.mem_cons]
          rintro (h | h)
          · exact h1 h.symm
          · exact h2 h
        rw [if_neg h2, if_neg hk]
        simp

lemma addToMap_keys_nodup (m : List (Int × Int)) (k v : Int)
    (h : (m.map Prod.fst).Nodup) : ((addToMap m k v).map Prod.fst).Nodup := by
  rw [addToMap_keys]
  split_ifs with h1
  · exact h
  · rw [List.nodup_append]
    refine ⟨h, by simp, ?_⟩
    intro a ha hb
    simp at hb
    subst hb
    exact h1 ha

lemma addToMap_keys_mem (m : List (Int × Int)) (k v t : Int) :
    t ∈ (addToMap m k v).map Prod.fst ↔ t ∈ m.map Prod.fst ∨ t = k := by
  rw [addToMap_keys]
  split_ifs with h1
  · constructor
    · exact Or.inl
    · rintro (h | rfl)
      · exact h
      · exact h1
  · simp

lemma mapLookup_addToMap (m : List (Int × Int)) (k a v : Int) :
    mapLookup (addToMap m k v) a =
      if a = k then some ((mapLookup m a).getD 0 + v) else mapLookup m a := by
  induction m with
  | nil =>
    simp only [addToMap, mapLookup]
    by_cases h : a = k
    · simp [h]
    · simp [h]
  | cons kv rest ih =>
    obtain ⟨k1, v1⟩ := kv
    rw [addToMap]
    by_cases h1 : k1 = k
    · subst h1
      by_cases h2 : a = k1 <;> simp [mapLookup, h2]
    · rw [if_neg h1]
      by_cases h2 : a = k1
      · have hak : ¬ a = k := by rw [h2]; exact h1
        simp [mapLookup, h2, hak, h1]
      · simp only [mapLookup, if_neg h2]
        rw [ih]

lemma accMap_keys_nodup (c : FetchedRow → Int) :
    ∀ (rows : List FetchedRow) (m : List (Int × Int)),
      (m.map Prod.fst).Nodup → ((accMap c rows m).map Prod.fst).Nodup := by
  intro rows
  induction rows with
  | nil => intro m h; exact h
  | cons r rows ih =>
    intro m h
    exact ih (addToMap m r.taskId (c r)) (addToMap_keys_nodup m r.taskId (c r) h)

lemma accMap_keys_mem (c : FetchedRow → Int) :
    ∀ (rows : List FetchedRow) (m : List (Int × Int)) (t : Int),
      t ∈ (accMap c rows m).map Prod.fst ↔
        t ∈ m.map Prod.fst ∨ ∃ r ∈ rows, r.taskId = t := by
  intro rows
  induction rows with
  | nil => intro m t; simp [accMap]
  | cons r rows ih =>
    intro m t
    have : accMap c (r :: rows) m = accMap c rows (addToMap m r.taskId (c r)) := rfl
    rw [this, ih, addToMap_keys_mem]
    constructor
    · rintro ((h | rfl) | h)
      · exact Or.inl h
      · exact Or.inr ⟨r, by simp⟩
      · obtain ⟨q, hq, hqt⟩ := h
        exact Or.inr ⟨q, by simp [hq], hqt⟩
    · rintro (h | h)
      · exact Or.inl (Or.inl h)
      · obtain ⟨q, hq, hqt⟩ := h
        rcases List.mem_cons.mp hq with rfl | hq2
        · exact Or.inl (Or.inr hqt.symm)
        · exact Or.inr ⟨q, hq2, hqt⟩

lemma accMap_lookup (c : FetchedRow → Int) :
    ∀ (rows : List FetchedRow) (m : List (Int × Int)) (t : Int),
      mapLookup (accMap c rows m) t =
        if (rows.filter fun r => decide (r.taskId = t)).isEmpty then mapLookup m t
        else some ((mapLookup m t).getD 0 +
          ((rows.filter fun r => decide (r.taskId = t)).map c).sum) := by
  intro rows
  induction rows with
  | nil => intro m t; simp [accMap]
  | cons r rows ih =>
    intro m t
    have hstep : accMap c (r :: rows) m = accMap c rows (addToMap m r.taskId (c r)) := rfl
    rw [hstep, ih, List.filter_cons]
    by_cases hrt : r.taskId = t
    · have hdec : decide (r.taskId = t) = true := by simp [hrt]
      rw [if_pos hdec, mapLookup_addToMap, if_pos hrt.symm]
      by_cases hemp : (rows.filter fun q => decide (q.taskId = t)).isEmpty = true
      · have hnil : rows.filter (fun q => decide (q.taskId = t)) = [] :=
          List.isEmpty_iff.mp hemp
        rw [if_pos hemp, hnil]
        simp
      · rw [if_neg hemp]
        simp only [List.isEmpty_cons, Bool.false_eq_true, if_false,
          List.map_cons, List.sum_cons, Option.getD_some]
        rw [add_assoc]
    · have hdec : ¬ (decide (r.taskId = t) = true) := by simp [hrt]
      have htr : ¬ (t = r.taskId) := fun h => hrt h.symm
      rw [if_neg hdec, mapLookup_addToMap, if_neg htr]

/-- Per-entry duration law as the spec states it, with the NULL fallback
amended to 23:59:59 of start_time's calendar day in the user's timezone
(the code derives the fallback day from start_time, not event_date). -/
def summaryDurationSpec (off : Int) (defaultEndTime : Instant)
    (r : FetchedRow) : Int :=
  match r.endTime with
  | some e => (e - r.startTime) * 1000000000
  | none =>
    if defaultEndTime ≠ 0 then (defaultEndTime - r.startTime) * 1000000000
    else (endOfStartDay off r.startTime - r.startTime) * 1000000000

/-- Per-entry duration law exactly as the claim words it, with the NULL
no-default fallback at 23:59:59 of the entry's event_date. -/
def claimC4Duration (off : Int) (defaultEndTime : Instant)
    (eventDate : Instant) (r : FetchedRow) : Int :=
  match r.endTime with
  | some e => (e - r.startTime) * 1000000000
  | none =>
    if defaultEndTime ≠ 0 then (defaultEndTime - r.startTime) * 1000000000
    else (secondsPerDay * localDay off eventDate + 86399 - off - r.startTime)
      * 1000000000

/-- C4 counterexample: an open entry whose event_date (day 0) differs from
start_time's calendar day (day 1, start 01:00): the code bills up to
23:59:59 of start_time's day (+82799 s), not of the entry's event_date
(which would give -3601 s). -/
theorem summaryFallback_eventDate_counterexample :
    contribution 0 0 ⟨4, 90000, none⟩ = 82799000000000 ∧
    claimC4Duration 0 0 0 ⟨4, 90000, none⟩ = -3601000000000 ∧
    contribution 0 0 ⟨4, 90000, none⟩ ≠ claimC4Duration 0 0 0 ⟨4, 90000, none⟩ := by
  refine ⟨by decide, by decide, by decide⟩

/-- C4 (amended): the accumulated total for every task id present among the
fetched rows is the sum of the per-entry durations, where an entry with
`end_time` present contributes end − start, an entry with `end_time` NULL
contributes default_end_time − start when default_end_time is configured
and 23:59:59 of start_time's local day − start otherwise. -/
theorem taskTimeMap_lookup_spec (off : Int) (defaultEndTime : Instant)
    (rows : List FetchedRow) (t : Int) (h : ∃ r ∈ rows, r.taskId = t) :
    (∀ r : FetchedRow,
        contribution off defaultEndTime r = summaryDurationSpec off defaultEndTime r) ∧
    mapLookup (taskTimeMap off defaultEndTime rows) t =
      some (((rows.filter fun r => decide (r.taskId = t)).map
        (summaryDurationSpec off defaultEndTime)).sum) := by
  have hpt : ∀ r : FetchedRow,
      contribution off defaultEndTime r = summaryDurationSpec off defaultEndTime r := by
    intro r
    cases hre : r.endTime with
    | none =>
      simp only [contribution, summaryDurationSpec, effectiveEnd, hre]
      split_ifs <;> ring
    | some e =>
      simp only [contribution, summaryDurationSpec, effectiveEnd, hre]
  refine ⟨hpt, ?_⟩
  rw [taskTimeMap, accMap_lookup]
  have hne : (rows.filter fun r => decide (r.taskId = t)) ≠ [] := by
    obtain ⟨r, hr, hrt⟩ := h
    exact List.ne_nil_of_mem (List.mem_filter.mpr ⟨hr, by simp [hrt]⟩)
  rw [if_neg (by simpa [List.isEmpty_iff] using hne)]
  simp only [mapLookup, Option.getD_none, zero_add]
  congr 1
  exact congrArg List.sum (List.map_congr_left fun r _ => hpt r)

theorem taskTimeMap_lookup_spec_witness :
    mapLookup (taskTimeMap 0 0 [⟨7, 10, none⟩]) 7 =
      some ((([⟨7, 10, none⟩] : List FetchedRow).filter
        (fun r => decide (r.taskId = 7))).map (summaryDurationSpec 0 0)).sum ∧
    contribution 0 0 ⟨7, 10, none⟩ = summaryDurationSpec 0 0 ⟨7, 10, none⟩ :=
  ⟨(taskTimeMap_lookup_spec 0 0 [⟨7, 10, none⟩] 7 ⟨⟨7, 10, none⟩, by simp, rfl⟩).2,
   (taskTimeMap_lookup_spec 0 0 [⟨7, 10, none⟩] 7 ⟨⟨7, 10, none⟩, by simp, rfl⟩).1
     ⟨7, 10, none⟩⟩

/-- The numeric total accumulated for a summary's task id. -/
def totalDurOf (off : Int) (defaultEndTime : Instant) (rows : List FetchedRow)
    (t : TaskSummary) : Int :=
  (mapLookup (taskTimeMap off defaultEndTime rows) t.taskId).getD 0

/-- C6 counterexample: with totals of 10h (task 1) and 9h (task 2) the
formatted strings sort as "9h0m0s" before "10h0m0s", so the first summary's
accumulated duration is strictly smaller than the second's. -/
theorem summarySort_duration_counterexample :
    GetUserTaskSummary 0 0 [⟨1, 0, some 36000⟩, ⟨2, 0, some 32400⟩] =
      [⟨2, "9h0m0s"⟩, ⟨1, "10h0m0s"⟩] ∧
    totalDurOf 0 0 [⟨1, 0, some 36000⟩, ⟨2, 0, some 32400⟩] ⟨2, "9h0m0s"⟩ <
      totalDurOf 0 0 [⟨1, 0, some 36000⟩, ⟨2, 0, some 32400⟩] ⟨1, "10h0m0s"⟩ := by
  refine ⟨by decide, by decide⟩

/-- C6 (amended): the summary list has exactly one entry per task id
present among the fetched rows and is sorted in descending lexicographic
order of the formatted `TotalTime` strings (Go compares the strings, not
the durations). -/
theorem GetUserTaskSummary_sorted (off : Int) (defaultEndTime : Instant)
    (rows : List FetchedRow) :
    List.Sorted summaryGE (GetUserTaskSummary off defaultEndTime rows) ∧
    ((GetUserTaskSummary off defaultEndTime rows).map TaskSummary.taskId).Nodup ∧
    (∀ t : Int,
      (∃ x ∈ GetUserTaskSummary off defaultEndTime rows, x.taskId = t) ↔
        ∃ r ∈ rows, r.taskId = t) := by
  set base := (taskTimeMap off defaultEndTime rows).map
    (fun kv => ({ taskId := kv.1, totalTime := goDurationString kv.2 } : TaskSummary))
    with hbase
  have hperm : List.Perm (GetUserTaskSummary off defaultEndTime rows) base :=
    List.perm_insertionSort summaryGE base
  have hkeys : base.map TaskSummary.taskId =
      (taskTimeMap off defaultEndTime rows).map Prod.fst := by
    rw [hbase, List.map_map]
    rfl
  refine ⟨List.sorted_insertionSort summaryGE base, ?_, ?_⟩
  · refine ((hperm.map TaskSummary.taskId).symm).nodup ?_
    rw [hkeys]
    exact accMap_keys_nodup _ rows [] (by simp)
  · intro t
    have h1 : (∃ x ∈ GetUserTaskSummary off defaultEndTime rows, x.taskId = t) ↔
        ∃ x ∈ base, x.taskId = t := by
      constructor
      · rintro ⟨x, hx, hxt⟩; exact ⟨x, hperm.mem_iff.mp hx, hxt⟩
      · rintro ⟨x, hx, hxt⟩; exact ⟨x, hperm.mem_iff.mpr hx, hxt⟩
    rw [h1]
    have h2 : (∃ x ∈ base, x.taskId = t) ↔ t ∈ base.map TaskSummary.taskId := by
      simp
    rw [h2, hkeys]
    have h3 := accMap_keys_mem (contribution off defaultEndTime) rows [] t
    rw [show accMap (contribution off defaultEndTime) rows [] =
        taskTimeMap off defaultEndTime rows from rfl] at h3
    rw [h3]
    simp

/-! ## Repository (in-memory mirror over the Persistence Gateway),
`storage/storage.go`.  The gateway outcome of each delegated call is passed
in as an `Except` parameter; Go maps are association lists. -/

/-- The `models.User` record (`Hash []byte` carried as a string of bytes). -/
structure User where
  uuid : Int
  passportSerie : Int
  passportNumber : Int
  surname : String
  name : String
  patronymic : String
  address : String
  defaultEndTime : Instant
  timezone : String
  email : String
  hash : String
  lastCheckedAt : Instant
deriving DecidableEq, Repr

/-- The `models.Task` record. -/
structure Task where
  id : Int
  name : String
  description : String
  createdAt : Instant
deriving DecidableEq, Repr

/-- The `models.ExtUserData` record used by the enrichment batch. -/
structure ExtUserData where
  passportSerie : Int
  passportNumber : Int
  surname : String
  name : String
  address : String
deriving DecidableEq, Repr

/-- Go map write `m[k] = v`: replace in place or append. -/
def mapInsert {α β : Type} [DecidableEq α] : List (α × β) → α → β → List (α × β)
  | [], k, v => [(k, v)]
  | (k1, v1) :: rest, k, v =>
    if k1 = k then (k, v) :: rest else (k1, v1) :: mapInsert rest k v

/-- Go map `delete(m, k)`. -/
def mapErase {α β : Type} [DecidableEq α] : List (α × β) → α → List (α × β)
  | [], _ => []
  | (k1, v1) :: rest, k =>
    if k1 = k then rest else (k1, v1) :: mapErase rest k

/-- The natural-key string `fmt.Sprintf("%d %d", serie, number)`. -/
def userKey (ps pn : Int) : String := s!"{ps} {pn}"

/-- The `MemoryStorage` mirror: users keyed by the natural-key string and
tasks keyed by id. -/
structure MemStorage where
  users : List (String × User)
  tasks : List (Int × Task)
deriving DecidableEq, Repr

/-- An opaque error value returned by the Persistence Gateway. -/
structure KeeperErr where
  code : Nat
deriving DecidableEq, Repr

instance exceptDecEq {ε α : Type} [DecidableEq ε] [DecidableEq α] :
    DecidableEq (Except ε α) := fun a b =>
  match a, b with
  | Except.error x, Except.error y =>
    if h : x = y then isTrue (by rw [h])
    else isFalse fun hc => h (by cases hc; rfl)
  | Except.error _, Except.ok _ => isFalse fun hc => Except.noConfusion hc
  | Except.ok _, Except.error _ => isFalse fun hc => Except.noConfusion hc
  | Except.ok x, Except.ok y =>
    if h : x = y then isTrue (by rw [h])
    else isFalse fun hc => h (by cases hc; rfl)

inductive StorageErr where
  | conflict
  | notFound
  | keeper (e : KeeperErr)
deriving DecidableEq, Repr

/-- Embeds `MemoryStorage.InsertUser`: in-memory duplicate check, then the
keeper's `SaveUser` (outcome `kres`), then the mirror write on success. -/
def InsertUser (kres : Except KeeperErr Unit) (s : MemStorage) (u : User) :
    Except StorageErr Unit × MemStorage :=
  let key := userKey u.passportSerie u.passportNumber
  if (mapLookup s.users key).isSome then (Except.error StorageErr.conflict, s)
  else
    match kres with
    | Except.error e => (Except.error (StorageErr.keeper e), s)
    | Except.ok _ => (Except.ok (), { s with users := mapInsert s.users key u })

/-- Embeds `MemoryStorage.UpdateUser`: existence check, then the mirror is
updated, and only then the keeper's `UpdateUser` is attempted. -/
def UpdateUser (kres : Except KeeperErr Unit) (s : MemStorage) (u : User) :
    Except StorageErr Unit × MemStorage :=
  let key := userKey u.passportSerie u.passportNumber
  if (mapLookup s.users key).isNone then (Except.error StorageErr.notFound, s)
  else
    let s1 : MemStorage := { s with users := mapInsert s.users key u }
    match kres with
    | Except.error e => (Except.error (StorageErr.keeper e), s1)
    | Except.ok _ => (Except.ok (), s1)

/-- Embeds `MemoryStorage.DeleteUser`: existence check, keeper delete,
mirror delete on success. -/
def DeleteUser (kres : Except KeeperErr Unit) (s : MemStorage) (ps pn : Int) :
    Except StorageErr Unit × MemStorage :=
  let key := userKey ps pn
  if (mapLookup s.users key).isNone then (Except.error StorageErr.notFound, s)
  else
    match kres with
    | Except.error e => (Except.error (StorageErr.keeper e), s)
    | Except.ok _ => (Except.ok (), { s with users := mapErase s.users key })

/-- Embeds `MemoryStorage.InsertTask`. -/
def InsertTask (kres : Except KeeperErr Unit) (s : MemStorage) (t : Task) :
    Except StorageErr Unit × MemStorage :=
  if (mapLookup s.tasks t.id).isSome then (Except.error StorageErr.conflict, s)
  else
    match kres with
    | Except.error e => (Except.error (StorageErr.keeper e), s)
    | Except.ok _ => (Except.ok (), { s with tasks := mapInsert s.tasks t.id t })

/-- Embeds `MemoryStorage.UpdateTask`: existence check, then the mirror is
updated; the keeper is never called. -/
def UpdateTask (s : MemStorage) (t : Task) :
    Except StorageErr Unit × MemStorage :=
  if (mapLookup s.tasks t.id).isNone then (Except.error StorageErr.notFound, s)
  else (Except.ok (), { s with tasks := mapInsert s.tasks t.id t })

/-- Embeds `MemoryStorage.DeleteTask`. -/
def DeleteTask (kres : Except KeeperErr Unit) (s : MemStorage) (tid : Int) :
    Except StorageErr Unit × MemStorage :=
  if (mapLookup s.tasks tid).isNone then (Except.error StorageErr.notFound, s)
  else
    match kres with
    | Except.error e => (Except.error (StorageErr.keeper e), s)
    | Except.ok _ => (Except.ok (), { s with tasks := mapErase s.tasks tid })

/-- The mirror merge loop of `MemoryStorage.UpdateUsersInfo`: for each batch
element present in the mirror, overwrite surname/name/address
(unconditionally; the mirror tracks no freshness). -/
def mirrorApplyExt (us : List (String × User)) (v : ExtUserData) :
    List (String × User) :=
  let key := userKey v.passportSerie v.passportNumber
  match mapLookup us key with
  | some o =>
    mapInsert us key
      { o with surname := v.surname, name := v.name, address := v.address }
  | none => us

/-- Embeds `MemoryStorage.UpdateUsersInfo`: keeper first, mirror merge only
on success. -/
def UpdateUsersInfo (kres : Except KeeperErr Unit) (s : MemStorage)
    (batch : List ExtUserData) : Except StorageErr Unit × MemStorage :=
  match kres with
  | Except.error e => (Except.error (StorageErr.keeper e), s)
  | Except.ok _ => (Except.ok (), { s with users := batch.foldl mirrorApplyExt s.users })

def sampleUserA : User :=
  ⟨3, 1, 2, "Old", "N", "P", "A", 0, "Europe/Moscow", "e", "h", 100⟩

def sampleUserB : User :=
  ⟨3, 1, 2, "New", "N", "P", "A", 0, "Europe/Moscow", "e", "h", 100⟩

def sampleStorage : MemStorage := ⟨[(userKey 1 2, sampleUserA)], []⟩

/-- C7 counterexample: `UpdateUser` writes the mirror before delegating, so
when the keeper fails the error is propagated but the mirror has already
changed — it is not "left exactly as it was before the call". -/
theorem UpdateUser_mirrorAhead_counterexample :
    (UpdateUser (Except.error ⟨1⟩) sampleStorage sampleUserB).1 =
      Except.error (StorageErr.keeper ⟨1⟩) ∧
    (UpdateUser (Except.error ⟨1⟩) sampleStorage sampleUserB).2 ≠ sampleStorage ∧
    (mapLookup (UpdateUser (Except.error ⟨1⟩) sampleStorage sampleUserB).2.users
        (userKey 1 2)).map User.surname = some "New" := by
  refine ⟨by decide, by decide, by decide⟩

/-- C7 (amended): on a failing gateway call, InsertUser, DeleteUser,
InsertTask, DeleteTask and UpdateUsersInfo leave the mirror exactly as it
was and propagate the keeper error (after their local precondition
checks); UpdateUser instead updates the mirror before the call, so the
failed call leaves the mirror already updated; UpdateTask performs no
gateway call at all. -/
theorem cacheMutation_keeperFailure (e : KeeperErr) (s : MemStorage)
    (u : User) (ps pn : Int) (t : Task) (tid : Int) (batch : List ExtUserData) :
    InsertUser (Except.error e) s u =
      ((if (mapLookup s.users (userKey u.passportSerie u.passportNumber)).isSome
          then Except.error StorageErr.conflict
          else Except.error (StorageErr.keeper e)), s) ∧
    DeleteUser (Except.error e) s ps pn =
      ((if (mapLookup s.users (userKey ps pn)).isNone
          then Except.error StorageErr.notFound
          else Except.error (StorageErr.keeper e)), s) ∧
    InsertTask (Except.error e) s t =
      ((if (mapLookup s.tasks t.id).isSome
          then Except.error StorageErr.conflict
          else Except.error (StorageErr.keeper e)), s) ∧
    DeleteTask (Except.error e) s tid =
      ((if (mapLookup s.tasks tid).isNone
          then Except.error StorageErr.notFound
          else Except.error (StorageErr.keeper e)), s) ∧
    UpdateUsersInfo (Except.error e) s batch = (Except.error (StorageErr.keeper e), s) ∧
    UpdateUser (Except.error e) s u =
      (if (mapLookup s.users (userKey u.passportSerie u.passportNumber)).isNone
        then (Except.error StorageErr.notFound, s)
        else (Except.error (StorageErr.keeper e),
          { s with users :=
              mapInsert s.users (userKey u.passportSerie u.passportNumber) u })) := by
  refine ⟨?_, ?_, ?_, ?_, rfl, ?_⟩
  · unfold InsertUser
    dsimp only
    by_cases hc : (mapLookup s.users (userKey u.passportSerie u.passportNumber)).isSome = true
    · rw [if_pos hc, if_pos hc]
    · rw [if_neg hc, if_neg hc]
  · unfold DeleteUser
    dsimp only
    by_cases hc : (mapLookup s.users (userKey ps pn)).isNone = true
    · rw [if_pos hc, if_pos hc]
    · rw [if_neg hc, if_neg hc]
  · unfold InsertTask
    by_cases hc : (mapLookup s.tasks t.id).isSome = true
    · rw [if_pos hc, if_pos hc]
    · rw [if_neg hc, if_neg hc]
  · unfold DeleteTask
    by_cases hc : (mapLookup s.tasks tid).isNone = true
    · rw [if_pos hc, if_pos hc]
    · rw [if_neg hc, if_neg hc]
  · unfold UpdateUser
    dsimp only

/-! ## Point lookup with gateway fallback (`GetUser`, id-keyed mirror
revision) -/

/-- The id-keyed `MemoryStorage` revision whose `GetUser` falls back to the
keeper and backfills. -/
structure MemStorageById where
  users : List (Int × User)
  tasks : List (Int × Task)
deriving DecidableEq, Repr

inductive GetUserErr where
  | keeper (e : KeeperErr)
  | notFound
deriving DecidableEq, Repr

/-- The mirror scan predicate of `GetUser`: the stored user carries the
requested passport series and number. -/
def userMatchesKey (ps pn : Int) (kv : Int × User) : Bool :=
  decide (kv.2.passportSerie = ps ∧ kv.2.passportNumber = pn)

/-- Embeds `MemoryStorage.GetUser` (id-keyed revision): scan the mirror for
the natural key; on a miss query the keeper (outcome `kres`), treat a zero
UUID as not found, otherwise backfill the mirror under the user's UUID and
return the user. -/
def GetUser (kres : Except KeeperErr User) (s : MemStorageById) (ps pn : Int) :
    Except GetUserErr User × MemStorageById :=
  match s.users.find? (userMatchesKey ps pn) with
  | some kv => (Except.ok kv.2, s)
  | none =>
    match kres with
    | Except.error e => (Except.error (GetUserErr.keeper e), s)
    | Except.ok u =>
      if u.uuid = 0 then (Except.error GetUserErr.notFound, s)
      else (Except.ok u, { s with users := mapInsert s.users u.uuid u })

lemma find?_mapInsert_of_none {α β : Type} [DecidableEq α]
    (p : α × β → Bool) (l : List (α × β)) (k : α) (v : β)
    (h : l.find? p = none) :
    (mapInsert l k v).find? p = if p (k, v) then some (k, v) else none := by
  induction l with
  | nil => simp [mapInsert]
  | cons kv rest ih =>
    obtain ⟨k1, v1⟩ := kv
    rw [List.find?_eq_none] at h
    have hp1 : ¬ p (k1, v1) = true := h (k1, v1) (by simp)
    have hrest : rest.find? p = none := by
      rw [List.find?_eq_none]
      intro x hx
      exact h x (by simp [hx])
    rw [mapInsert]
    by_cases hk : k1 = k
    · rw [if_pos hk]
      by_cases hpk : p (k, v) = true
      · rw [if_pos hpk, List.find?_cons_of_pos _ hpk]
      · rw [if_neg hpk, List.find?_cons_of_neg _ hpk]
        exact hrest
    · rw [if_neg hk, List.find?_cons_of_neg _ hp1]
      exact ih hrest

/-- C8: when the natural key misses the mirror and the keeper returns a
user carrying that key with a nonzero UUID, `GetUser` returns that user and
backfills it into the mirror; a subsequent `GetUser` for the same key is a
cache hit returning the same user, whatever the keeper would answer. -/
theorem GetUser_backfill (s : MemStorageById) (ps pn : Int) (u : User)
    (hmiss : s.users.find? (userMatchesKey ps pn) = none)
    (hps : u.passportSerie = ps) (hpn : u.passportNumber = pn)
    (huuid : ¬ u.uuid = 0) :
    GetUser (Except.ok u) s ps pn =
      (Except.ok u, { s with users := mapInsert s.users u.uuid u }) ∧
    (∀ kres : Except KeeperErr User,
      GetUser kres ({ s with users := mapInsert s.users u.uuid u }) ps pn =
        (Except.ok u, { s with users := mapInsert s.users u.uuid u })) := by
  have hfind : (mapInsert s.users u.uuid u).find? (userMatchesKey ps pn) =
      some (u.uuid, u) := by
    rw [find?_mapInsert_of_none _ _ _ _ hmiss]
    rw [if_pos (by simp [userMatchesKey, hps, hpn])]
  constructor
  · unfold GetUser
    rw [hmiss]
    dsimp only
    rw [if_neg huuid]
  · intro kres
    unfold GetUser
    dsimp only
    rw [hfind]

def emptyByIdStore : MemStorageById := ⟨[], []⟩

theorem GetUser_backfill_witness :
    GetUser (Except.ok sampleUserA) emptyByIdStore 1 2 =
      (Except.ok sampleUserA,
        { emptyByIdStore with
            users := mapInsert emptyByIdStore.users sampleUserA.uuid sampleUserA }) ∧
    GetUser (Except.error ⟨9⟩)
        ({ emptyByIdStore with
            users := mapInsert emptyByIdStore.users sampleUserA.uuid sampleUserA }) 1 2 =
      (Except.ok sampleUserA,
        { emptyByIdStore with
            users := mapInsert emptyByIdStore.users sampleUserA.uuid sampleUserA }) := by
  have h := GetUser_backfill emptyByIdStore 1 2 sampleUserA
    (by decide) (by decide) (by decide) (by decide)
  exact ⟨h.1, h.2 (Except.error ⟨9⟩)⟩

/-! ## Batched conditional profile refresh (`bdkeeper.UpdateUsersInfo`) -/

/-- One durable `Users` row, restricted to the columns the batch update
touches plus the freshness marker (`last_checked_at`, nullable). -/
structure DbUser where
  passportSerie : Int
  passportNumber : Int
  surname : String
  name : String
  address : String
  lastCheckedAt : Option Instant
deriving DecidableEq, Repr

namespace BDKeeper

/-- The SQL join condition `Users.passportSerie = updated.passportSerie AND
Users.passportNumber = updated.passportNumber`. -/
def batchMatch (row : DbUser) (v : ExtUserData) : Bool :=
  decide (v.passportSerie = row.passportSerie ∧ v.passportNumber = row.passportNumber)

/-- The SQL staleness guard
`Users.last_checked_at IS NULL OR Users.last_checked_at <= $6`. -/
def staleAt (thresholdTime : Instant) (row : DbUser) : Bool :=
  match row.lastCheckedAt with
  | none => true
  | some t => decide (t ≤ thresholdTime)

/-- Effect of the batched UPDATE on one row: when a batch element matches
the natural key and the row is still stale at apply time, overwrite
surname/name/address and refresh `last_checked_at` to `CURRENT_TIMESTAMP`;
otherwise leave the row untouched. -/
def updateRow (batch : List ExtUserData) (thresholdTime applyTime : Instant)
    (row : DbUser) : DbUser :=
  match batch.find? (batchMatch row) with
  | some v =>
    if staleAt thresholdTime row then
      { row with surname := v.surname, name := v.name, address := v.address,
                 lastCheckedAt := some applyTime }
    else row
  | none => row

/-- Embeds the durable effect of `BDKeeper.UpdateUsersInfo`. -/
def UpdateUsersInfo (batch : List ExtUserData) (thresholdTime applyTime : Instant)
    (rows : List DbUser) : List DbUser :=
  rows.map (updateRow batch thresholdTime applyTime)

end BDKeeper

/-- C9 counterexample: a mirrored user whose freshness marker (100) is
later than the staleness threshold (50) — hence not stale at apply time —
still has its surname overwritten by the Repository's mirror merge, which
applies the batch unconditionally. -/
theorem UpdateUsersInfo_mirror_counterexample :
    BDKeeper.staleAt 50 ⟨1, 2, "Old", "N", "A", some 100⟩ = false ∧
    (mapLookup (UpdateUsersInfo (Except.ok ()) sampleStorage
        [⟨1, 2, "New", "N", "A"⟩]).2.users (userKey 1 2)).map User.surname =
      some "New" ∧
    sampleUserA.surname = "Old" ∧ sampleUserA.lastCheckedAt = 100 := by
  refine ⟨by decide, by decide, rfl, rfl⟩

/-- C9 (amended): the durable batched update touches exactly the rows that
match some batch element and are still stale at apply time (freshness
marker NULL or not later than the threshold): those rows get the batch's
surname/name/address and a refreshed marker, while every durable row that
became fresh in between is left completely unchanged.  The in-memory
mirror, by contrast, applies the batch fields unconditionally. -/
theorem BDKeeper_UpdateUsersInfo_staleOnly (batch : List ExtUserData)
    (thresholdTime applyTime : Instant) (rows : List DbUser) :
    BDKeeper.UpdateUsersInfo batch thresholdTime applyTime rows =
      rows.map (BDKeeper.updateRow batch thresholdTime applyTime) ∧
    (∀ row : DbUser, ∀ t : Instant, row.lastCheckedAt = some t →
      thresholdTime < t →
      BDKeeper.updateRow batch thresholdTime applyTime row = row) ∧
    (∀ row : DbUser, ∀ v : ExtUserData,
      batch.find? (BDKeeper.batchMatch row) = some v →
      BDKeeper.staleAt thresholdTime row = true →
      BDKeeper.updateRow batch thresholdTime applyTime row =
        { row with surname := v.surname, name := v.name, address := v.address,
                   lastCheckedAt := some applyTime }) := by
  refine ⟨rfl, ?_, ?_⟩
  · intro row t hlc ht
    unfold BDKeeper.updateRow
    cases hf : batch.find? (BDKeeper.batchMatch row) with
    | none => rfl
    | some v =>
      have hstale : BDKeeper.staleAt thresholdTime row = false := by
        unfold BDKeeper.staleAt
        rw [hlc]
        exact decide_eq_false (not_le.mpr ht)
      dsimp only
      rw [if_neg (by simp [hstale])]
  · intro row v hf hs
    unfold BDKeeper.updateRow
    rw [hf]
    dsimp only
    rw [if_pos hs]

theorem BDKeeper_UpdateUsersInfo_staleOnly_witness :
    BDKeeper.updateRow [⟨1, 2, "S2", "N2", "A2"⟩] 50 60
        ⟨1, 2, "s", "n", "a", some 100⟩ =
      ⟨1, 2, "s", "n", "a", some 100⟩ ∧
    BDKeeper.updateRow [⟨1, 2, "S2", "N2", "A2"⟩] 50 60
        ⟨1, 2, "s", "n", "a", some 10⟩ =
      ⟨1, 2, "S2", "N2", "A2", some 60⟩ := by
  have h := BDKeeper_UpdateUsersInfo_staleOnly [⟨1, 2, "S2", "N2", "A2"⟩] 50 60 []
  exact ⟨h.2.1 ⟨1, 2, "s", "n", "a", some 100⟩ 100 rfl (by norm_num),
    h.2.2 ⟨1, 2, "s", "n", "a", some 10⟩ ⟨1, 2, "S2", "N2", "A2"⟩
      (by decide) (by decide)⟩

/-! ## Filtered, paginated mirror reads (`GetUsers` / `GetTasks`) -/

/-- Membership of `needle` as a leading segment of `hay`. -/
def leadsWith : List Char → List Char → Bool
  | [], _ => true
  | _ :: _, [] => false
  | a :: as, b :: bs => if a = b then leadsWith as bs else false

/-- Membership of `needle` as a contiguous segment of `hay`. -/
def containsSeq (needle : List Char) : List Char → Bool
  | [] => leadsWith needle []
  | b :: bs => if leadsWith needle (b :: bs) then true else containsSeq needle bs

/-- Go `strings.Contains(hay, needle)`. -/
def strContains (hay needle : String) : Bool :=
  containsSeq needle.toList hay.toList

/-- The `models.Filter` value (pointer fields become `Option`); the Email
field exists but is never consulted by `GetUsers`. -/
structure Filter where
  passportSerie : Option Int
  passportNumber : Option Int
  surname : Option String
  name : Option String
  patronymic : Option String
  address : Option String
  timezone : Option String
  email : Option String
deriving Repr

/-- The `models.TaskFilter` value. -/
structure TaskFilter where
  name : Option String
  description : Option String
deriving Repr

/-- The `models.Pagination` value; the Go `int` fields are non-negative in
every reachable call (a negative slice bound would panic). -/
structure Pagination where
  offset : Nat
  limit : Nat
deriving DecidableEq, Repr

def checkInt (fo : Option Int) (x : Int) : Bool :=
  match fo with
  | some v => decide (v = x)
  | none => true

def checkSub (fo : Option String) (x : String) : Bool :=
  match fo with
  | some v => strContains x v
  | none => true

/-- The per-field `continue`-on-mismatch chain of `GetUsers`. -/
def userMatchesFilter (f : Filter) (u : User) : Bool :=
  checkInt f.passportSerie u.passportSerie &&
  checkInt f.passportNumber u.passportNumber &&
  checkSub f.surname u.surname &&
  checkSub f.name u.name &&
  checkSub f.patronymic u.patronymic &&
  checkSub f.address u.address &&
  checkSub f.timezone u.timezone

def taskMatchesFilter (tf : TaskFilter) (t : Task) : Bool :=
  checkSub tf.name t.name && checkSub tf.description t.description

/-- The offset/limit window shared by `GetUsers` and `GetTasks`:
`start := offset; end := start + limit; if start >= len(result) return
empty; if end > len(result) { end = len(result) }; return
result[start:end]`. -/
def windowSlice {α : Type} (offset limit : Nat) (result : List α) : List α :=
  if result.length ≤ offset then []
  else (result.take (min (offset + limit) result.length)).drop offset

/-- Embeds `MemoryStorage.GetUsers`: linear scan of the mirror with the
per-field predicates, then the offset/limit window. -/
def GetUsers (f : Filter) (p : Pagination) (s : MemStorage) : List User :=
  windowSlice p.offset p.limit ((s.users.map Prod.snd).filter (userMatchesFilter f))

/-- Embeds `MemoryStorage.GetTasks`. -/
def GetTasks (tf : TaskFilter) (p : Pagination) (s : MemStorage) : List Task :=
  windowSlice p.offset p.limit ((s.tasks.map Prod.snd).filter (taskMatchesFilter tf))

lemma windowSlice_zero {α : Type} (l : List α) : windowSlice 0 0 l = [] := by
  unfold windowSlice
  by_cases h : l.length ≤ 0
  · rw [if_pos h]
  · rw [if_neg h]
    simp

/-- C10: with the zero-value pagination (`Limit = 0`, `Offset = 0`, as when
the caller omits the limit) both `GetUsers` and `GetTasks` return the empty
list regardless of the filter and of how many mirror entries match, because
the returned window is `result[0:0]`. -/
theorem GetUsers_GetTasks_zeroLimit (f : Filter) (tf : TaskFilter) (s : MemStorage) :
    GetUsers f ⟨0, 0⟩ s = [] ∧ GetTasks tf ⟨0, 0⟩ s = [] :=
  ⟨windowSlice_zero _, windowSlice_zero _⟩

end Timetracker
